import Mathlib

/-!
Verification of the attempt-tracking / review-scheduling core of the
`track` repository (a spaced-repetition CLI for practice problems).

The embedding models calendar dates as integers counting days
(`chrono::NaiveDate` plus `chrono::Duration::days` becomes integer
addition), machine integers `i64` as `Int`, and the ambient local clock
(`Local::now().date_naive()`) as an explicit `today` parameter.  The
SQLite tables `progress` and `problems` are modelled as lists of rows,
and SQL queries as list operations matching the query text.
-/

namespace Track

/-- Calendar dates, counted in days (shallow embedding of `chrono::NaiveDate`;
`date + Duration::days(k)` becomes `date + k`). -/
abbrev Date := Int

/-- `AttemptRating` from `src/problem_attempts.rs`: the closed enumeration of
attempt grades. -/
inductive AttemptRating where
  | Easy
  | Hard
  | Messy
  | LongFail
  | ShortFail
  deriving DecidableEq, Repr, Fintype

/-- `ProblemAttempt` from `src/problem_attempts.rs`: the per-problem progress
record persisted in the `progress` table. -/
structure ProblemAttempt where
  problem_id : Int
  last_attempted : Date
  attempt_rating : AttemptRating
  next_attempt_date : Option Date
  number_of_attempts : Int
  deriving DecidableEq, Repr

/-- `next_interval` from `src/problem_attempts.rs`: the interval calculator.
The body binds `very_clever_calculation_for_days = 1` and returns
`Some(Duration::days(1))` without inspecting either argument. -/
def next_interval (most_recent_attempt_rating : AttemptRating)
    (total_number_of_attempts : Int) : Option Int :=
  let very_clever_calculation_for_days : Int := 1
  some very_clever_calculation_for_days

/-- `ProblemAttempt::new_attempt` from `src/problem_attempts.rs`.  The ambient
clock default (`Local::now().date_naive()` when `attempt_date` is `None`) is
passed explicitly as `today`. -/
def ProblemAttempt.new_attempt (problem_id : Int)
    (attempt_rating : AttemptRating) (attempt_date : Option Date)
    (today : Date) : ProblemAttempt :=
  let last_attempted := match attempt_date with
    | some date => date
    | none => today
  { problem_id := problem_id
    last_attempted := last_attempted
    attempt_rating := attempt_rating
    next_attempt_date :=
      (next_interval attempt_rating 0).map (fun days => last_attempted + days)
    number_of_attempts := 1 }

/-- `ProblemAttempt::update_attempt` from `src/problem_attempts.rs`: mutates
the record in place; modelled as returning the updated record. -/
def ProblemAttempt.update_attempt (self : ProblemAttempt)
    (latest_rating : AttemptRating) (attempt_date : Option Date)
    (today : Date) : ProblemAttempt :=
  let number_of_attempts := self.number_of_attempts + 1
  let last_attempted := match attempt_date with
    | some date => date
    | none => today
  { self with
    attempt_rating := latest_rating
    number_of_attempts := number_of_attempts
    last_attempted := last_attempted
    next_attempt_date :=
      (next_interval latest_rating number_of_attempts).map
        (fun days => last_attempted + days) }

/-- `LeetCodeDifficulty` from `src/problems.rs`. -/
inductive LeetCodeDifficulty where
  | Easy
  | Medium
  | Hard
  deriving DecidableEq, Repr

/-- `Problem` from `src/problems.rs`: one catalog entry of the `problems`
table. -/
structure Problem where
  id : Int
  order : Int
  name : String
  difficulty : Option LeetCodeDifficulty
  week : Option Int
  deriving DecidableEq, Repr

/-- The errors of §7 of the design, used to classify the failure paths of the
caller-side code (`anyhow` errors in `src/db.rs` and `src/main.rs`). -/
inductive TrackError where
  | NoPriorAttempt
  | InvalidGrade
  | InvalidDate
  deriving DecidableEq, Repr

/-- The `progress` table: at most one row per `problem_id` (enforced by the
store); modelled as a list of rows. -/
abbrev ProgressTable := List ProblemAttempt

/-- `fetch_progress` from `src/db.rs`:
`SELECT * FROM progress WHERE problem_id = ?` with `fetch_optional`. -/
def fetch_progress (db : ProgressTable) (problem_id : Int) :
    Option ProblemAttempt :=
  db.find? (fun r => r.problem_id == problem_id)

/-- `update_progress` from `src/db.rs`: fetches the current progress, fails
when none exists (`.context("Cannot update progress for a problem that has no
attempts yet. ...")`, the `NoPriorAttempt` error of the spec), otherwise
applies `ProblemAttempt::update_attempt` in memory and writes the row back
(`UPDATE progress SET ... WHERE problem_id = ?`). -/
def update_progress (db : ProgressTable) (problem_id : Int)
    (latest_rating : AttemptRating) (attempt_date : Option Date)
    (today : Date) : Except TrackError ProgressTable :=
  match fetch_progress db problem_id with
  | none => .error .NoPriorAttempt
  | some current_progress =>
    let updated := current_progress.update_attempt latest_rating attempt_date today
    .ok (db.map (fun r =>
      if r.problem_id == updated.problem_id then
        { r with
          last_attempted := updated.last_attempted
          attempt_rating := updated.attempt_rating
          next_attempt_date := updated.next_attempt_date
          number_of_attempts := updated.number_of_attempts }
      else r))

/-- Whether a catalog entry has a corresponding row in the `progress` table
(the `LEFT JOIN ... pr.problem_id IS NULL` test of the query in
`src/db.rs`). -/
def attempted (progress : ProgressTable) (p : Problem) : Bool :=
  progress.any (fun pr => pr.problem_id == p.id)

/-- `fetch_next_unattempted_problem` from `src/db.rs`:
`SELECT ... FROM problems p LEFT JOIN progress pr ON p.id = pr.problem_id
WHERE pr.problem_id IS NULL ORDER BY p."order" ASC LIMIT 1`.
The `ORDER BY ... LIMIT 1` is modelled as the head of the list sorted by
`order` ascending. -/
def fetch_next_unattempted_problem (problems : List Problem)
    (progress : ProgressTable) : Option Problem :=
  ((problems.filter (fun p => !(attempted progress p))).mergeSort
    (fun a b => a.order ≤ b.order)).head?

/-- `map_rating` from `src/main.rs`: converts the 1-5 integer CLI rating to
`AttemptRating`.  The `_ => unreachable!()` panic arm is modelled as `none`. -/
def map_rating : Nat → Option AttemptRating
  | 1 => some .ShortFail
  | 2 => some .LongFail
  | 3 => some .Messy
  | 4 => some .Hard
  | 5 => some .Easy
  | _ => none

/-- The clap-level validator on the CLI `rating` argument in `src/main.rs`:
`value_parser!(u8).range(1..=5)`. -/
def rating_in_range (n : Nat) : Bool :=
  1 ≤ n && n ≤ 5

/-- The caller-side translation of a raw numeric rating, as composed in
`src/main.rs`: the clap `range(1..=5)` validator rejects out-of-range raw
values (the `InvalidGrade` error of the design) before `map_rating` runs. -/
def translate_rating (n : Nat) : Except TrackError AttemptRating :=
  if rating_in_range n then
    match map_rating n with
    | some r => .ok r
    | none => .error .InvalidGrade
  else .error .InvalidGrade

/-! ## Theorems -/

/-- C1: for every grade and every attempt count, `next_interval` returns
`Some` interval of exactly 1 day, ignoring both of its inputs. -/
theorem next_interval_constant_one_day :
    (∀ (g : AttemptRating) (n : Int), next_interval g n = some 1) ∧
    (∀ (g g' : AttemptRating) (n n' : Int),
      next_interval g n = next_interval g' n') :=
  ⟨fun _ _ => rfl, fun _ _ _ _ => rfl⟩

/-- C2: the first-attempt transition with an explicit date `d` yields a record
with attempt count 1, the given grade, last_attempted equal to `d`, and a next
due date equal to `next_interval g 0` mapped over `d + duration`, hence
`d + 1` under the constant interval. -/
theorem new_attempt_explicit_date_fields (pid : Int) (g : AttemptRating)
    (d today : Date) :
    (ProblemAttempt.new_attempt pid g (some d) today).number_of_attempts = 1 ∧
    (ProblemAttempt.new_attempt pid g (some d) today).attempt_rating = g ∧
    (ProblemAttempt.new_attempt pid g (some d) today).last_attempted = d ∧
    (ProblemAttempt.new_attempt pid g (some d) today).next_attempt_date =
      (next_interval g 0).map (fun days => d + days) ∧
    (ProblemAttempt.new_attempt pid g (some d) today).next_attempt_date =
      some (d + 1) :=
  ⟨rfl, rfl, rfl, rfl, rfl⟩

/-- C3: the subsequent-attempt transition with an explicit date `d` increments
the attempt count, stores the given grade and `d`, and recomputes the next due
date from `next_interval` at the new attempt count mapped over
`d + duration`. -/
theorem update_attempt_explicit_date_fields (r : ProblemAttempt)
    (g : AttemptRating) (d today : Date) :
    (r.update_attempt g (some d) today).number_of_attempts =
      r.number_of_attempts + 1 ∧
    (r.update_attempt g (some d) today).attempt_rating = g ∧
    (r.update_attempt g (some d) today).last_attempted = d ∧
    (r.update_attempt g (some d) today).next_attempt_date =
      (next_interval g (r.number_of_attempts + 1)).map (fun days => d + days) :=
  ⟨rfl, rfl, rfl, rfl⟩

/-- C4: for every record produced by either transition, whenever the next due
date is present it is at least the last-attempted date. -/
theorem next_due_not_before_last_attempted :
    (∀ (pid : Int) (g : AttemptRating) (ad : Option Date) (today d : Date),
      (ProblemAttempt.new_attempt pid g ad today).next_attempt_date = some d →
      (ProblemAttempt.new_attempt pid g ad today).last_attempted ≤ d) ∧
    (∀ (r : ProblemAttempt) (g : AttemptRating) (ad : Option Date)
      (today d : Date),
      (r.update_attempt g ad today).next_attempt_date = some d →
      (r.update_attempt g ad today).last_attempted ≤ d) := by
  constructor
  · intro pid g ad today d h
    cases ad <;> simp [ProblemAttempt.new_attempt, next_interval] at h ⊢ <;>
      linarith
  · intro r g ad today d h
    cases ad <;> simp [ProblemAttempt.update_attempt, next_interval] at h ⊢ <;>
      linarith

/-- C4 witness: the bound evaluated on a concrete first attempt. -/
theorem next_due_not_before_last_attempted_witness :
    (ProblemAttempt.new_attempt 42 AttemptRating.Easy (some 10) 0).last_attempted
      ≤ 11 :=
  next_due_not_before_last_attempted.1 42 AttemptRating.Easy (some 10) 0 11 rfl

/-- C5: when no progress row exists for the problem, `update_progress` fails
with the no-prior-attempt error, so it never behaves like a first attempt and
returns no table (no record is created or changed). -/
theorem update_progress_no_prior_attempt (db : ProgressTable) (pid : Int)
    (g : AttemptRating) (ad : Option Date) (today : Date)
    (h : fetch_progress db pid = none) :
    update_progress db pid g ad today = .error .NoPriorAttempt ∧
    ∀ db', update_progress db pid g ad today ≠ .ok db' := by
  simp [update_progress, h]

/-- C5 witness: updating on an empty progress table fails. -/
theorem update_progress_no_prior_attempt_witness :
    update_progress [] 1 AttemptRating.Easy none 0 =
      .error .NoPriorAttempt :=
  (update_progress_no_prior_attempt [] 1 AttemptRating.Easy none 0 rfl).1

/-- C6: for every catalog with pairwise distinct order values and every
progress table, the next-unattempted query returns a catalog entry with no
progress row whose order value is smallest among such entries (and any entry
with those properties is that one), and it returns nothing exactly when every
catalogued item has a progress row. -/
theorem fetch_next_unattempted_spec (problems : List Problem)
    (progress : ProgressTable)
    (huniq : problems.Pairwise (fun a b => a.order ≠ b.order)) :
    (∀ p, fetch_next_unattempted_problem problems progress = some p →
      p ∈ problems ∧ attempted progress p = false ∧
      (∀ q ∈ problems, attempted progress q = false → p.order ≤ q.order) ∧
      (∀ q ∈ problems, attempted progress q = false →
        (∀ x ∈ problems, attempted progress x = false → q.order ≤ x.order) →
        q = p)) ∧
    (fetch_next_unattempted_problem problems progress = none ↔
      ∀ p ∈ problems, attempted progress p = true) := by
  have htrans : ∀ a b c : Problem,
      (fun a b : Problem => decide (a.order ≤ b.order)) a b →
      (fun a b : Problem => decide (a.order ≤ b.order)) b c →
      (fun a b : Problem => decide (a.order ≤ b.order)) a c := by
    intro a b c hab hbc
    simp only [decide_eq_true_eq] at *
    exact le_trans hab hbc
  have htotal : ∀ a b : Problem,
      ((fun a b : Problem => decide (a.order ≤ b.order)) a b ||
       (fun a b : Problem => decide (a.order ≤ b.order)) b a) = true := by
    intro a b
    simp only [Bool.or_eq_true, decide_eq_true_eq]
    exact le_total a.order b.order
  constructor
  · intro p hp
    unfold fetch_next_unattempted_problem at hp
    obtain ⟨t, ht⟩ := List.head?_eq_some_iff.mp hp
    have hpmem : p ∈ (problems.filter
        (fun q => !(attempted progress q))).mergeSort
        (fun a b => a.order ≤ b.order) := by
      rw [ht]; exact List.mem_cons_self p t
    rw [List.mem_mergeSort, List.mem_filter] at hpmem
    obtain ⟨hpcat, hpun⟩ := hpmem
    have hpun' : attempted progress p = false := by
      simpa using hpun
    have hmin : ∀ q ∈ problems, attempted progress q = false →
        p.order ≤ q.order := by
      intro q hqcat hqun
      have hqmem : q ∈ (problems.filter
          (fun x => !(attempted progress x))).mergeSort
          (fun a b => a.order ≤ b.order) := by
        rw [List.mem_mergeSort, List.mem_filter]
        exact ⟨hqcat, by simp [hqun]⟩
      rw [ht] at hqmem
      rcases List.mem_cons.mp hqmem with hq | hq
      · rw [hq]
      · have hsorted := List.sorted_mergeSort htrans htotal
          (problems.filter (fun x => !(attempted progress x)))
        rw [ht] at hsorted
        have := (List.pairwise_cons.mp hsorted).1 q hq
        simpa using this
    refine ⟨hpcat, hpun', hmin, ?_⟩
    intro q hqcat hqun hqmin
    by_contra hne
    have horder : q.order = p.order :=
      le_antisymm (hqmin p hpcat hpun') (hmin q hqcat hqun)
    have hsym : Symmetric (fun a b : Problem => a.order ≠ b.order) := by
      intro a b hab
      exact fun h => hab h.symm
    exact huniq.forall hsym hqcat hpcat hne horder
  · unfold fetch_next_unattempted_problem
    rw [List.head?_eq_none_iff]
    constructor
    · intro hnil p hpcat
      have : problems.filter (fun x => !(attempted progress x)) = [] := by
        have hperm := List.mergeSort_perm
          (problems.filter (fun x => !(attempted progress x)))
          (fun a b => a.order ≤ b.order)
        rw [hnil] at hperm
        exact (List.Perm.symm hperm).eq_nil
      have := List.filter_eq_nil_iff.mp this p hpcat
      simpa using this
    · intro hall
      have : problems.filter (fun x => !(attempted progress x)) = [] := by
        rw [List.filter_eq_nil_iff]
        intro a ha
        simp [hall a ha]
      rw [this, List.mergeSort_nil]

/-- C6 witness: the example of §8 of the design — catalog entries with orders
1, 2, 3 and progress rows for items 1 and 3; the query returns the entry for
item 2, to which the theorem applies. -/
theorem fetch_next_unattempted_spec_witness :
    (⟨2, 2, "b", none, none⟩ : Problem) ∈
      ([⟨1, 1, "a", none, none⟩, ⟨2, 2, "b", none, none⟩,
        ⟨3, 3, "c", none, none⟩] : List Problem) ∧
    attempted [⟨1, 0, AttemptRating.Easy, some 1, 1⟩,
        ⟨3, 0, AttemptRating.Easy, some 1, 1⟩]
      ⟨2, 2, "b", none, none⟩ = false :=
  ⟨((fetch_next_unattempted_spec
      [⟨1, 1, "a", none, none⟩, ⟨2, 2, "b", none, none⟩,
       ⟨3, 3, "c", none, none⟩]
      [⟨1, 0, AttemptRating.Easy, some 1, 1⟩,
       ⟨3, 0, AttemptRating.Easy, some 1, 1⟩] (by decide)).1
      ⟨2, 2, "b", none, none⟩
      (by simp [fetch_next_unattempted_problem, attempted])).1,
   ((fetch_next_unattempted_spec
      [⟨1, 1, "a", none, none⟩, ⟨2, 2, "b", none, none⟩,
       ⟨3, 3, "c", none, none⟩]
      [⟨1, 0, AttemptRating.Easy, some 1, 1⟩,
       ⟨3, 0, AttemptRating.Easy, some 1, 1⟩] (by decide)).1
      ⟨2, 2, "b", none, none⟩
      (by simp [fetch_next_unattempted_problem, attempted])).2.1⟩

/-- C7: `next_interval` is total and deterministic over every pair with
attempt count at least 1: it returns a value (in fact always a `some`), and
equal inputs yield equal outputs. -/
theorem next_interval_total_deterministic (g : AttemptRating) (n : Int)
    (h : 1 ≤ n) :
    (next_interval g n).isSome = true ∧
    ∀ (g' : AttemptRating) (n' : Int), g' = g → n' = n →
      next_interval g' n' = next_interval g n := by
  refine ⟨rfl, ?_⟩
  intro g' n' hg hn
  rw [hg, hn]

/-- C7 witness: totality and determinism evaluated at a concrete input. -/
theorem next_interval_total_deterministic_witness :
    (next_interval AttemptRating.Easy 1).isSome = true ∧
    next_interval AttemptRating.Easy 1 = next_interval AttemptRating.Easy 1 :=
  ⟨(next_interval_total_deterministic AttemptRating.Easy 1 (by decide)).1,
   (next_interval_total_deterministic AttemptRating.Easy 1 (by decide)).2
     AttemptRating.Easy 1 rfl rfl⟩

/-- Helper: `map_rating` reaches the `unreachable!` arm (modelled as `none`)
for every raw value of 6 or more. -/
theorem map_rating_eq_none_of_ge (i : Nat) (h : 6 ≤ i) : map_rating i = none := by
  obtain ⟨k, rfl⟩ : ∃ k, i = k + 6 := ⟨i - 6, by omega⟩
  rfl

/-- C8: `AttemptRating` is a closed enumeration of exactly five variants,
ordered worst to best along the ascending raw 1-5 scale: the translation maps
1 to ShortFail, 2 to LongFail, 3 to Messy, 4 to Hard and 5 to Easy,
injectively (no two raw values coerce to the same grade) and onto every
variant, and any raw value outside 1-5 produces the invalid-grade error,
never a grade. -/
theorem attempt_grade_closed_enumeration :
    Fintype.card AttemptRating = 5 ∧
    (map_rating 1 = some AttemptRating.ShortFail ∧
     map_rating 2 = some AttemptRating.LongFail ∧
     map_rating 3 = some AttemptRating.Messy ∧
     map_rating 4 = some AttemptRating.Hard ∧
     map_rating 5 = some AttemptRating.Easy) ∧
    (∀ (i j : Nat) (ri rj : AttemptRating), map_rating i = some ri →
      map_rating j = some rj → ri = rj → i = j) ∧
    (∀ r : AttemptRating, ∃ n : Nat,
      rating_in_range n = true ∧ map_rating n = some r) ∧
    (∀ (n : Nat) (r : AttemptRating), map_rating n = some r →
      translate_rating n = Except.ok r) ∧
    (∀ n : Nat, rating_in_range n = false →
      translate_rating n = Except.error TrackError.InvalidGrade) := by
  refine ⟨by decide, ⟨rfl, rfl, rfl, rfl, rfl⟩, ?_, ?_, ?_, ?_⟩
  · intro i j ri rj hi hj hr
    have hi6 : i < 6 := by
      by_contra hc
      rw [map_rating_eq_none_of_ge i (by omega)] at hi
      exact Option.noConfusion hi
    have hj6 : j < 6 := by
      by_contra hc
      rw [map_rating_eq_none_of_ge j (by omega)] at hj
      exact Option.noConfusion hj
    interval_cases i <;> interval_cases j <;> simp_all [map_rating] <;>
      (subst hj; exact AttemptRating.noConfusion hi)
  · intro r
    cases r with
    | Easy => exact ⟨5, rfl, rfl⟩
    | Hard => exact ⟨4, rfl, rfl⟩
    | Messy => exact ⟨3, rfl, rfl⟩
    | LongFail => exact ⟨2, rfl, rfl⟩
    | ShortFail => exact ⟨1, rfl, rfl⟩
  · intro n r h
    have hn6 : n < 6 := by
      by_contra hc
      rw [map_rating_eq_none_of_ge n (by omega)] at h
      exact Option.noConfusion h
    interval_cases n <;>
      simp_all [translate_rating, rating_in_range, map_rating]
  · intro n h
    simp [translate_rating, h]

/-- C8 witness: the translation evaluated at concrete raw values, in and out
of range. -/
theorem attempt_grade_closed_enumeration_witness :
    map_rating 2 = some AttemptRating.LongFail ∧
    translate_rating 2 = Except.ok AttemptRating.LongFail ∧
    rating_in_range 0 = false ∧
    translate_rating 0 = Except.error TrackError.InvalidGrade :=
  ⟨attempt_grade_closed_enumeration.2.1.2.1,
   attempt_grade_closed_enumeration.2.2.2.2.1 2 AttemptRating.LongFail rfl,
   by decide,
   attempt_grade_closed_enumeration.2.2.2.2.2 0 rfl⟩

/-- C9: the subsequent-attempt transition leaves the problem id of the record
unchanged. -/
theorem update_attempt_preserves_problem_id (r : ProblemAttempt)
    (g : AttemptRating) (ad : Option Date) (today : Date) :
    (r.update_attempt g ad today).problem_id = r.problem_id :=
  rfl

/-- C10: every record produced by either transition has a present
next-attempt date: the absent "no further review scheduled" state is never
produced by `new_attempt` or `update_attempt`. -/
theorem transitions_always_schedule_next :
    (∀ (pid : Int) (g : AttemptRating) (ad : Option Date) (today : Date),
      (ProblemAttempt.new_attempt pid g ad today).next_attempt_date.isSome
        = true) ∧
    (∀ (r : ProblemAttempt) (g : AttemptRating) (ad : Option Date)
      (today : Date),
      (r.update_attempt g ad today).next_attempt_date.isSome = true) :=
  ⟨fun _ _ _ _ => rfl, fun _ _ _ _ => rfl⟩

end Track
